import Mathlib

/-!
Shallow embedding of the BUPA document-processing core
(`src/extract_contents.py` and `src/json_to_csv.py`).

Python strings are modelled as `List Char` (sequences of code points, as the
source indexes them), JSON-like values as the inductive `JVal`, and Python
exceptions as the `Except PyErr` monad: `.error e` means the Python code
raises exception class `e` at that point.
-/

/-- Python exception classes that the modelled code can raise. -/
inductive PyErr where
  | valueError
  | typeError
  | attributeError
deriving DecidableEq, Repr

deriving instance DecidableEq for Except

/-- A deserialized JSON value, as produced by `json.loads`: dictionaries are
association lists in insertion order (keys unique). -/
inductive JVal where
  | str (s : String)
  | num (n : Int)
  | bool (b : Bool)
  | null
  | arr (items : List JVal)
  | obj (fields : List (String × JVal))

/-- The characters Python's `str.strip()` and `int()` treat as whitespace
(ASCII fragment; the source data never contains the further Unicode spaces). -/
def pyIsSpace (c : Char) : Bool :=
  c = ' ' || c = '\t' || c = '\n' || c = '\r' || c = '\x0b' || c = '\x0c'

/-- Python `str.strip()`: drop leading and trailing whitespace. -/
def pyStrip (cs : List Char) : List Char :=
  ((cs.dropWhile pyIsSpace).reverse.dropWhile pyIsSpace).reverse

/-- Continuation of a Python integer literal body: digits with optional single
underscore separators (an underscore must sit between two digits). -/
def intBodyTail : List Char → Bool
  | [] => true
  | '_' :: [] => false
  | '_' :: c :: rest => c.isDigit && intBodyTail rest
  | c :: rest => c.isDigit && intBodyTail rest

/-- Check that a character list is a valid body of a Python integer literal
after the sign: nonempty, starting with a digit. -/
def intBodyOk : List Char → Bool
  | [] => false
  | c :: rest => c.isDigit && intBodyTail rest

/-- Numeric value of a digit string, skipping underscore separators. -/
def digitsVal (cs : List Char) : Nat :=
  (cs.filter (fun c => c ≠ '_')).foldl (fun acc c => acc * 10 + (c.toNat - '0'.toNat)) 0

/-- Python `int(s)` for a string argument: strip whitespace, optional sign,
decimal digits (with underscore separators); `none` models `ValueError`. -/
def parseIntStr (s : String) : Option Int :=
  match pyStrip s.data with
  | '+' :: rest => if intBodyOk rest then some (Int.ofNat (digitsVal rest)) else none
  | '-' :: rest => if intBodyOk rest then some (-(Int.ofNat (digitsVal rest))) else none
  | rest => if intBodyOk rest then some (Int.ofNat (digitsVal rest)) else none

/-- The Python `int()` builtin applied to a JSON value: strings are parsed
(`ValueError` on failure), numbers are themselves, booleans are 0/1, and
`None`/lists/dicts raise `TypeError`. -/
def pyInt : JVal → Except PyErr Int
  | .str s =>
    match parseIntStr s with
    | some n => .ok n
    | none => .error .valueError
  | .num n => .ok n
  | .bool b => .ok (if b then 1 else 0)
  | _ => .error .typeError

/-- Python truthiness of a JSON value. -/
def pyTruthy : JVal → Bool
  | .str s => !(s = "")
  | .num n => !(n = 0)
  | .bool b => b
  | .null => false
  | .arr items => !items.isEmpty
  | .obj kvs => !kvs.isEmpty

/-- Python `d.get(k)` on a dictionary (association list, unique keys). -/
def jGet (kvs : List (String × JVal)) (k : String) : Option JVal :=
  (kvs.find? (fun kv => kv.1 = k)).map (fun kv => kv.2)

/-- Python `d[k] = v` on a dictionary: replace the value in place when the key
exists (keeping its position), otherwise append the new entry at the end. -/
def jSet (kvs : List (String × JVal)) (k : String) (v : JVal) : List (String × JVal) :=
  if kvs.any (fun kv => kv.1 = k) then
    kvs.map (fun kv => if kv.1 = k then (k, v) else kv)
  else kvs ++ [(k, v)]

/-- Python `len()` on a JSON value; `TypeError` for values without a length. -/
def pyLen : JVal → Except PyErr Int
  | .str s => .ok (Int.ofNat s.data.length)
  | .arr items => .ok (Int.ofNat items.length)
  | .obj kvs => .ok (Int.ofNat kvs.length)
  | _ => .error .typeError

/-!
`src/extract_contents.py`
-/

/-- The module-level constant `FIELDS_TO_REMOVE` of `extract_contents.py`. -/
def FIELDS_TO_REMOVE : List String :=
  ["pageRefs", "textAnchor", "boundingPoly", "textSegments", "pageAnchor",
   "detectedLanguages", "layout", "detectedBreak", "dimension", "image",
   "tables", "blocks", "lines", "tokens", "pages", "documentLayout"]

/-- A `sizeOf` bound used for the termination of the tree recursions below. -/
theorem sizeOf_filter_le {α : Type} [SizeOf α] (p : α → Bool) (l : List α) :
    sizeOf (l.filter p) ≤ sizeOf l := by
  induction l with
  | nil => simp
  | cons h t ih =>
    rw [List.filter_cons]
    split
    · simp only [List.cons.sizeOf_spec]
      omega
    · simp only [List.cons.sizeOf_spec]
      omega

mutual
/-- `extract_contents.remove_fields_recursive(data, fields)` (functional form):
on a dict, first pop every key in `fields`, then recurse into the remaining
values; on a list, recurse into the items; leaves are untouched. -/
def remove_fields_recursive (fields : List String) : JVal → JVal
  | .obj kvs =>
    .obj (removeRecurseObj fields (kvs.filter (fun kv => !(List.contains fields kv.1))))
  | .arr items => .arr (removeRecurseArr fields items)
  | v => v
termination_by v => sizeOf v
decreasing_by
  · have := sizeOf_filter_le (fun kv => !(List.contains fields kv.1)) kvs
    simp only [JVal.obj.sizeOf_spec]
    omega
  · simp only [JVal.arr.sizeOf_spec]
    omega
/-- The `for item in data` list branch of `remove_fields_recursive`. -/
def removeRecurseArr (fields : List String) : List JVal → List JVal
  | [] => []
  | v :: rest => remove_fields_recursive fields v :: removeRecurseArr fields rest
termination_by l => sizeOf l
decreasing_by
  · simp only [List.cons.sizeOf_spec]; omega
  · simp only [List.cons.sizeOf_spec]; omega
/-- The `for key, value in data.items()` recursion of `remove_fields_recursive`
over the entries that survived the pop phase. -/
def removeRecurseObj (fields : List String) : List (String × JVal) → List (String × JVal)
  | [] => []
  | (k, v) :: rest => (k, remove_fields_recursive fields v) :: removeRecurseObj fields rest
termination_by l => sizeOf l
decreasing_by
  · simp only [List.cons.sizeOf_spec, Prod.mk.sizeOf_spec]; omega
  · simp only [List.cons.sizeOf_spec]; omega
end

/-- The sort key of `reconstruct_mention_text`:
`lambda x: int(x.get('startIndex', '0'))`.  Note there is no try/except around
the sort, so a `ValueError` (or `TypeError`/`AttributeError`) raised here
escapes `reconstruct_mention_text`. -/
def sortStartKey (seg : JVal) : Except PyErr Int :=
  match seg with
  | .obj kvs => pyInt ((jGet kvs "startIndex").getD (.str "0"))
  | _ => .error .attributeError

/-- `end = int(segment.get('endIndex', str(start)))` for a segment whose
parsed start is `start` (when `endIndex` is absent, `int(str(start)) = start`). -/
def segEndKey (start : Int) (seg : JVal) : Except PyErr Int :=
  match seg with
  | .obj kvs =>
    match jGet kvs "endIndex" with
    | none => .ok start
    | some v => pyInt v
  | _ => .error .attributeError

/-- The decorate phase of `sorted(text_segments_list, key=...)`: Python
evaluates the key on every element in list order; the first exception aborts
the whole call. -/
def keyedSegments (segs : List JVal) : Except PyErr (List (Int × JVal)) :=
  segs.mapM (fun s => (sortStartKey s).map (fun k => (k, s)))

/-- Comparison used by the sort: ascending parsed `startIndex`. -/
abbrev segLe (a b : Int × JVal) : Prop := a.1 ≤ b.1

instance : DecidableRel segLe := fun a b => inferInstanceAs (Decidable (a.1 ≤ b.1))

instance : IsTotal (Int × JVal) segLe := ⟨fun a b => Int.le_total a.1 b.1⟩

instance : IsTrans (Int × JVal) segLe := ⟨fun _ _ _ h1 h2 => le_trans h1 h2⟩

/-- One iteration of the `for segment in segments` loop of
`reconstruct_mention_text`, for a segment with parsed start `ks.1`.
The `try` block re-parses the start (which succeeded in the sort key, so it
cannot fail again) and parses the end; `except ValueError: continue` skips the
segment, other exception classes propagate.  The chained comparison
`0 <= start <= end <= len(doc_text)` is evaluated left to right, so `len` is
only reached (and can only raise `TypeError`) when `0 <= start <= end`. -/
def reconstruct_step (doc_text : JVal) (acc : List Char) (ks : Int × JVal) :
    Except PyErr (List Char) :=
  match segEndKey ks.1 ks.2 with
  | .error .valueError => .ok acc
  | .error e => .error e
  | .ok e =>
    if ks.1 < 0 then .ok acc
    else if e < ks.1 then .ok acc
    else
      match pyLen doc_text with
      | .error err => .error err
      | .ok n =>
        if e ≤ n then
          match doc_text with
          | .str s => .ok (acc ++ ((s.data.drop ks.1.toNat).take (e - ks.1).toNat))
          | _ => .error .typeError
        else .ok acc

/-- `extract_contents.reconstruct_mention_text(doc_text, text_segments_list)`.
A non-list segment argument returns `''.strip()`; otherwise the segments are
decorated with their parsed start index, stably sorted ascending by it
(`List.insertionSort` is stable, like Python's `sorted`), the loop accumulates
the in-bounds slices, and the result is stripped. -/
def reconstruct_mention_text (doc_text : JVal) (text_segments_list : JVal) :
    Except PyErr (List Char) :=
  match text_segments_list with
  | .arr segs =>
    match keyedSegments segs with
    | .error e => .error e
    | .ok keyed =>
      match (List.insertionSort segLe keyed).foldlM (reconstruct_step doc_text) [] with
      | .error e => .error e
      | .ok t => .ok (pyStrip t)
  | _ => .ok (pyStrip [])


/-- A value stored in a dictionary is smaller than the dictionary. -/
theorem sizeOf_jGet {k : String} {v : JVal} :
    ∀ {kvs : List (String × JVal)}, jGet kvs k = some v → sizeOf v < sizeOf kvs := by
  intro kvs
  induction kvs with
  | nil => intro h; simp [jGet] at h
  | cons kv rest ih =>
    intro h
    by_cases hk : kv.1 = k
    · rw [jGet, List.find?_cons_of_pos _ (by simpa using hk)] at h
      rcases kv with ⟨a, b⟩
      simp only [Option.map_some', Option.some.injEq] at h
      have hv : v = b := h.symm
      subst hv
      simp only [List.cons.sizeOf_spec, Prod.mk.sizeOf_spec]
      omega
    · rw [jGet, List.find?_cons_of_neg _ (by simpa using hk)] at h
      have := ih h
      simp only [List.cons.sizeOf_spec]
      omega

/-- Replacing the value at key `k` does not change lookups of another key. -/
theorem jGet_map_set (k k2 : String) (v : JVal) (h : k2 ≠ k) :
    ∀ rest : List (String × JVal),
      jGet (rest.map (fun kv => if kv.1 = k then (k, v) else kv)) k2 = jGet rest k2 := by
  intro rest
  induction rest with
  | nil => rfl
  | cons kv tail ih =>
    by_cases hk : kv.1 = k
    · have h1 : ((fun kv : String × JVal => if kv.1 = k then (k, v) else kv) kv) = (k, v) := by
        simp [hk]
      simp only [jGet, List.map_cons, h1]
      rw [List.find?_cons_of_neg _ (by simpa using Ne.symm h),
          List.find?_cons_of_neg _ (by simp [hk, Ne.symm h])]
      exact ih
    · have h1 : ((fun kv : String × JVal => if kv.1 = k then (k, v) else kv) kv) = kv := by
        simp [hk]
      simp only [jGet, List.map_cons, h1]
      by_cases hk2 : kv.1 = k2
      · rw [List.find?_cons_of_pos _ (by simpa using hk2),
            List.find?_cons_of_pos _ (by simpa using hk2)]
      · rw [List.find?_cons_of_neg _ (by simpa using hk2),
            List.find?_cons_of_neg _ (by simpa using hk2)]
        exact ih

/-- Appending an entry for key `k` does not change lookups of another key. -/
theorem jGet_append_ne (k k2 : String) (v : JVal) (h : k2 ≠ k) :
    ∀ l : List (String × JVal), jGet (l ++ [(k, v)]) k2 = jGet l k2 := by
  intro l
  induction l with
  | nil => simp [jGet, List.find?, Ne.symm h]
  | cons kv tail ih =>
    by_cases hk2 : kv.1 = k2
    · simp only [jGet, List.cons_append]
      rw [List.find?_cons_of_pos _ (by simpa using hk2),
          List.find?_cons_of_pos _ (by simpa using hk2)]
    · simp only [jGet, List.cons_append]
      rw [List.find?_cons_of_neg _ (by simpa using hk2),
          List.find?_cons_of_neg _ (by simpa using hk2)]
      exact ih

/-- Setting one key does not change what `get` returns for a different key
(used below: the `mentionText` assignment leaves `properties` intact). -/
theorem jGet_jSet_ne (kvs : List (String × JVal)) (k k2 : String) (v : JVal)
    (h : k2 ≠ k) : jGet (jSet kvs k v) k2 = jGet kvs k2 := by
  rw [jSet]
  split
  · exact jGet_map_set k k2 v h kvs
  · exact jGet_append_ne k k2 v h kvs

/-- `entity.get("textAnchor", {}).get("textSegments", [])`: the second `.get`
raises `AttributeError` when the stored `textAnchor` value is not a dict. -/
def getTextSegments (kvs : List (String × JVal)) : Except PyErr JVal :=
  match (jGet kvs "textAnchor").getD (.obj []) with
  | .obj t => .ok ((jGet t "textSegments").getD (.arr []))
  | _ => .error .attributeError

/-- The inner function `correct_entities_recursive(entity_list)` of
`extract_contents.process_and_upload_docai_json`, with the enclosing
`doc_text` as an explicit argument.  For each entity (which must be a dict,
else `.get` raises `AttributeError`): fetch the text segments; when both the
segment list and `doc_text` are truthy, overwrite `mentionText` with the
reconstruction result (whose exceptions propagate — nothing catches them);
then, when a `properties` key is present, recurse into its value, which
iteration requires to be a list.  The `properties` entry is read from the
original dict: by `jGet_jSet_ne` the `mentionText` assignment does not change
it. -/
def correct_entities_recursive (doc_text : JVal) : List JVal → Except PyErr (List JVal)
  | [] => .ok []
  | .obj kvs :: rest =>
    match getTextSegments kvs with
    | .error err => .error err
    | .ok segsVal =>
      match (if pyTruthy segsVal && pyTruthy doc_text then
               (reconstruct_mention_text doc_text segsVal).map
                 (fun t => jSet kvs "mentionText" (.str (String.mk t)))
             else .ok kvs) with
      | .error err => .error err
      | .ok kvs2 =>
        match hp : jGet kvs "properties" with
        | none =>
          match correct_entities_recursive doc_text rest with
          | .error err => .error err
          | .ok rest2 => .ok (JVal.obj kvs2 :: rest2)
        | some (.arr ps) =>
          match correct_entities_recursive doc_text ps with
          | .error err => .error err
          | .ok ps2 =>
            match correct_entities_recursive doc_text rest with
            | .error err => .error err
            | .ok rest2 => .ok (JVal.obj (jSet kvs2 "properties" (.arr ps2)) :: rest2)
        | some _ => .error .typeError
  | _ :: _ => .error .attributeError
termination_by l => sizeOf l
decreasing_by
  · simp only [List.cons.sizeOf_spec]; omega
  · have h1 := sizeOf_jGet hp
    simp only [List.cons.sizeOf_spec, JVal.obj.sizeOf_spec, JVal.arr.sizeOf_spec] at h1 ⊢
    omega
  · simp only [List.cons.sizeOf_spec]; omega

/-- The processing core of `process_and_upload_docai_json` after the download
try/except: `doc_text = doc.get("text", "")` (`.get` raises `AttributeError`
on a non-dict document, uncaught), `correct_entities_recursive(doc.get(
"entities", []))` mutating the entities in place, then
`remove_fields_recursive(doc, FIELDS_TO_REMOVE)`.  The returned value is the
document that `upload_dict_as_file` uploads; `.error` means the exception
propagates and no upload happens.  When the `entities` key is absent, the
recursion runs over a fresh empty list and the document is left as is. -/
def process_docai_core (doc : JVal) : Except PyErr JVal :=
  match doc with
  | .obj kvs =>
    match jGet kvs "entities" with
    | some (.arr es) =>
      match correct_entities_recursive ((jGet kvs "text").getD (.str "")) es with
      | .error err => .error err
      | .ok es2 =>
        .ok (remove_fields_recursive FIELDS_TO_REMOVE (.obj (jSet kvs "entities" (.arr es2))))
    | none => .ok (remove_fields_recursive FIELDS_TO_REMOVE (.obj kvs))
    | some _ => .error .typeError
  | _ => .error .attributeError

/-!
`src/json_to_csv.py`
-/

/-- `json_to_csv.clean_text(value)` for a string-or-None value: `None` stays
`None`; otherwise strip, and map the empty result to `None`. -/
def clean_text : Option (List Char) → Option (List Char)
  | none => none
  | some v => if (pyStrip v).isEmpty then none else some (pyStrip v)

/-- The substitution `re.sub(r'\r\n|\r', '\n', text)`: the regex engine scans
left to right, preferring the first alternative, so a CRLF pair becomes one
LF and a lone CR becomes LF. -/
def normNL : List Char → List Char
  | [] => []
  | '\r' :: '\n' :: rest => '\n' :: normNL rest
  | '\r' :: rest => '\n' :: normNL rest
  | c :: rest => c :: normNL rest

/-- `json_to_csv.normalize_newlines(text)` on a string: falsy (empty) input is
returned unchanged, otherwise the substitution above is applied
(`pd.isna` is false for every string). -/
def normalize_newlines (s : List Char) : List Char :=
  if s.isEmpty then s else normNL s

/-- An entity dict as consumed by `json_to_csv.convert_gcs_jsons_to_excel`:
the fields the code reads, each `Option` since the `.get` calls tolerate
absence.  `properties` is `[]` both for an absent and for an empty list (the
code only tests truthiness).  An empty-dict property (falsy in `if prop1`)
behaves identically to `None` in `create_record`, so `Option FlatEntity`
models that branch faithfully. -/
inductive FlatEntity where
  | mk (type mentionText source_file_hint : Option (List Char))
       (properties : List FlatEntity)

/-- The `type` field of an entity. -/
def FlatEntity.type : FlatEntity → Option (List Char)
  | .mk t _ _ _ => t

/-- The `mentionText` field of an entity. -/
def FlatEntity.mentionText : FlatEntity → Option (List Char)
  | .mk _ m _ _ => m

/-- The `source_file_hint` field of an entity. -/
def FlatEntity.source_file_hint : FlatEntity → Option (List Char)
  | .mk _ _ s _ => s

/-- The `properties` list of an entity. -/
def FlatEntity.properties : FlatEntity → List FlatEntity
  | .mk _ _ _ p => p

/-- One output row, as the dict literal built by `json_to_csv.create_record`:
keys in insertion order, values string-or-None. -/
abbrev RecordT := List (String × Option (List Char))

/-- `json_to_csv.create_record(entity, prop1=None, prop2=None)`: the record
dict literal (note it has no id/confidence columns, no `prop2_*` columns, and
never reads `prop2`), followed by the loop normalizing newlines in every
string value. -/
def create_record (entity : FlatEntity) (prop1 prop2 : Option FlatEntity) : RecordT :=
  let record : RecordT :=
    [("source_file", entity.source_file_hint),
     ("entity_type", entity.type),
     ("entity_mentionText", clean_text entity.mentionText),
     ("prop1_type", prop1.bind FlatEntity.type),
     ("prop1_mentionText", prop1.bind (fun p => clean_text p.mentionText))]
  record.map (fun kv => (kv.1, kv.2.map normalize_newlines))

/-- The per-entity block of the loop in `convert_gcs_jsons_to_excel`:
`if entity.get('properties'): for prop1 ...: if prop1.get('properties'): for
prop2 ...` — records are appended per deepest populated level. -/
def flatten_entity (entity : FlatEntity) : List RecordT :=
  match entity.properties with
  | [] => [create_record entity none none]
  | props =>
    props.flatMap (fun prop1 =>
      match prop1.properties with
      | [] => [create_record entity (some prop1) none]
      | props2 => props2.map (fun prop2 => create_record entity (some prop1) (some prop2)))

/-- `entity['source_file_hint'] = os.path.basename(blob.name)`, executed on
each top-level entity before the records are built. -/
def set_source_hint (hint : List Char) : FlatEntity → FlatEntity
  | .mk t m _ p => .mk t m (some hint) p

/-- The record list a single file's entity list contributes in
`convert_gcs_jsons_to_excel` (`hint` is the blob's base name). -/
def convert_gcs_entities (hint : List Char) (entities : List FlatEntity) : List RecordT :=
  entities.flatMap (fun e => flatten_entity (set_source_hint hint e))

/-- Outcome of one blob iteration of `convert_gcs_jsons_to_excel` around the
`entities` list: the whole body sits in `try: ... except Exception: continue`,
so exceptions skip the file with a printed error; a falsy `entities` prints a
warning and skips; otherwise flattening proceeds on the list. -/
inductive BlobOutcome where
  | errorSkip
  | warnSkip
  | processed (entities : List JVal)

/-- `data.get("entities", [])` and the subsequent truthiness test / iteration
in `convert_gcs_jsons_to_excel`: a non-dict `data` raises `AttributeError`
(caught: error + continue), a falsy entities value warns and continues, a
truthy non-list raises on iteration or on the first element (caught: error +
continue). -/
def handle_blob (data : JVal) : BlobOutcome :=
  match data with
  | .obj kvs =>
    match (jGet kvs "entities").getD (.arr []) with
    | .arr [] => .warnSkip
    | .arr es => .processed es
    | v => if pyTruthy v then .errorSkip else .warnSkip
  | _ => .errorSkip

/-!
Reference definitions written from the specification text, to be compared
with the code model, and the predicates used to state the claims.
-/

/-- Whether the sort key (parsed `startIndex`) of a segment succeeds. -/
def startOk (seg : JVal) : Bool :=
  match sortStartKey seg with
  | .ok _ => true
  | .error _ => false

/-- Whether parsing the segment's `endIndex` cannot raise anything but
`ValueError` (which the loop catches): it is absent, or a string / number /
boolean value. -/
def endOk (seg : JVal) : Bool :=
  match segEndKey 0 seg with
  | .error .typeError => false
  | .error .attributeError => false
  | _ => true

/-- A well-formed wire segment: a dict whose `startIndex` parses as an
integer and whose `endIndex`, when present, is of a type `int()` accepts. -/
def segWellFormed (seg : JVal) : Bool :=
  startOk seg && endOk seg

/-- The parsed start index of a segment, totalized (0 when parsing fails;
only used under a `startOk` hypothesis). -/
def refStart (seg : JVal) : Int :=
  match sortStartKey seg with
  | .ok k => k
  | .error _ => 0

/-- The parsed end index of a segment, `none` when it fails to parse. -/
def refEnd (start : Int) (seg : JVal) : Option Int :=
  match segEndKey start seg with
  | .ok e => some e
  | .error _ => none

/-- The reference reconstruction, following the specification text: decorate
each segment with its parsed `startIndex`, sort ascending by it (stable), and
for each segment in sorted order append `document_text[start:end]` when
`0 ≤ start ≤ end ≤ length(document_text)` (skipping the rest, including
segments whose offsets fail to parse); finally trim surrounding whitespace. -/
def reference_reconstruct (document_text : List Char) (segs : List JVal) : List Char :=
  let sorted := List.insertionSort segLe (segs.map (fun s => (refStart s, s)))
  pyStrip (sorted.foldl (fun acc ks =>
    match refEnd ks.1 ks.2 with
    | some e =>
      if (0 : Int) ≤ ks.1 ∧ ks.1 ≤ e ∧ e ≤ Int.ofNat document_text.length then
        acc ++ ((document_text.drop ks.1.toNat).take (e - ks.1).toNat)
      else acc
    | none => acc) [])

/-- A segment (with parsed start `start`) contributes nothing over document
text `t`: its end fails to parse, or the range check fails. -/
def segSkipped (t : List Char) (start : Int) (seg : JVal) : Bool :=
  match refEnd start seg with
  | none => true
  | some e => !((0 : Int) ≤ start ∧ start ≤ e ∧ e ≤ Int.ofNat t.length : Bool)

/-- Number of deepest-populated leaves of an entity, as the specification
counts records: a childless entity is its own leaf; otherwise every childless
`prop1` is one leaf and every `prop2` under a `prop1` is one leaf. -/
def leafCount (e : FlatEntity) : Nat :=
  match e.properties with
  | [] => 1
  | props =>
    (props.map (fun p1 =>
      match p1.properties with
      | [] => 1
      | props2 => props2.length)).sum

mutual
/-- No dict anywhere in the tree carries a key from `fields`. -/
def noBannedKeys (fields : List String) : JVal → Bool
  | .obj kvs => noBannedObj fields kvs
  | .arr items => noBannedArr fields items
  | _ => true
termination_by v => sizeOf v
decreasing_by
  · simp only [JVal.obj.sizeOf_spec]; omega
  · simp only [JVal.arr.sizeOf_spec]; omega
/-- `noBannedKeys` for every element of a list. -/
def noBannedArr (fields : List String) : List JVal → Bool
  | [] => true
  | v :: rest => noBannedKeys fields v && noBannedArr fields rest
termination_by l => sizeOf l
decreasing_by
  · simp only [List.cons.sizeOf_spec]; omega
  · simp only [List.cons.sizeOf_spec]; omega
/-- No entry key lies in `fields`, and every value satisfies `noBannedKeys`. -/
def noBannedObj (fields : List String) : List (String × JVal) → Bool
  | [] => true
  | (k, v) :: rest => !(List.contains fields k) && noBannedKeys fields v && noBannedObj fields rest
termination_by l => sizeOf l
decreasing_by
  · simp only [List.cons.sizeOf_spec, Prod.mk.sizeOf_spec]; omega
  · simp only [List.cons.sizeOf_spec]; omega
end

/-- The column names of a record, in order. -/
def recKeys (r : RecordT) : List String :=
  r.map Prod.fst

/-- Lookup of a record field (`none` when the column is absent). -/
def recLookup (r : RecordT) (k : String) : Option (Option (List Char)) :=
  (r.find? (fun kv => kv.1 = k)).map Prod.snd

/-- A fully cleaned text value: nonempty, no leading or trailing whitespace,
and no carriage return left. -/
def isCleanText (v : List Char) : Bool :=
  !v.isEmpty &&
  (match v.head? with
   | some c => !pyIsSpace c
   | none => true) &&
  (match v.getLast? with
   | some c => !pyIsSpace c
   | none => true) &&
  !v.contains '\r'

/-!
Supporting lemmas about the flattener.
-/

/-- The record built by `create_record` always has the same five columns. -/
theorem recKeys_create_record (e : FlatEntity) (p1 p2 : Option FlatEntity) :
    recKeys (create_record e p1 p2) =
      ["source_file", "entity_type", "entity_mentionText", "prop1_type", "prop1_mentionText"] :=
  rfl

/-- Every record of `flatten_entity` is a `create_record` output. -/
theorem mem_flatten_entity {e : FlatEntity} {r : RecordT} (hr : r ∈ flatten_entity e) :
    ∃ p1 p2, r = create_record e p1 p2 := by
  rw [flatten_entity] at hr
  split at hr
  · exact ⟨none, none, List.mem_singleton.mp hr⟩
  · rcases List.mem_flatMap.mp hr with ⟨p1, _, hr1⟩
    split at hr1
    · exact ⟨some p1, none, List.mem_singleton.mp hr1⟩
    · rcases List.mem_map.mp hr1 with ⟨p2, _, hr2⟩
      exact ⟨some p1, some p2, hr2.symm⟩

/-- Every record of `convert_gcs_entities` is a `create_record` output for the
hint-tagged entity. -/
theorem mem_convert_gcs_entities {hint : List Char} {es : List FlatEntity} {r : RecordT}
    (hr : r ∈ convert_gcs_entities hint es) :
    ∃ e p1 p2, r = create_record (set_source_hint hint e) p1 p2 := by
  rcases List.mem_flatMap.mp hr with ⟨e, _, hre⟩
  rcases mem_flatten_entity hre with ⟨p1, p2, h⟩
  exact ⟨e, p1, p2, h⟩

/-- `flatten_entity` emits exactly one record per deepest-populated leaf. -/
theorem length_flatten_entity (e : FlatEntity) :
    (flatten_entity e).length = leafCount e := by
  rw [flatten_entity, leafCount]
  split
  · rfl
  · rw [List.length_flatMap]
    congr 1
    apply List.map_congr_left
    intro p1 _
    simp only [Function.comp_apply]
    split
    · rfl
    · simp

/-- Tagging the source file does not change the property tree. -/
theorem leafCount_set_source_hint (hint : List Char) (e : FlatEntity) :
    leafCount (set_source_hint hint e) = leafCount e := by
  cases e
  rfl

/-- Each per-property record block is nonempty. -/
theorem one_le_leafTerm (p1 : FlatEntity) :
    1 ≤ (match p1.properties with
         | [] => 1
         | props2 => props2.length) := by
  cases hp : p1.properties with
  | nil => exact le_refl 1
  | cons a l => simp

/-- Every entity owns at least one deepest-populated leaf. -/
theorem one_le_leafCount (e : FlatEntity) : 1 ≤ leafCount e := by
  rw [leafCount]
  cases hp : e.properties with
  | nil => exact le_refl 1
  | cons p ps =>
    refine le_trans ?_ (List.length_le_sum_of_one_le _ ?_)
    · simp
    · intro n hn
      rcases List.mem_map.mp hn with ⟨p1, _, rfl⟩
      exact one_le_leafTerm p1

/-- Record count of a file's conversion: the sum of per-entity leaf counts. -/
theorem length_convert_gcs_entities (hint : List Char) (es : List FlatEntity) :
    (convert_gcs_entities hint es).length = (es.map leafCount).sum := by
  rw [convert_gcs_entities, List.length_flatMap]
  congr 1
  apply List.map_congr_left
  intro e _
  simp only [Function.comp_apply]
  rw [length_flatten_entity, leafCount_set_source_hint]

/-- No entity is dropped: at least one record per top-level entity. -/
theorem length_le_convert_gcs_entities (hint : List Char) (es : List FlatEntity) :
    es.length ≤ (convert_gcs_entities hint es).length := by
  rw [length_convert_gcs_entities]
  have h1 : ∀ n ∈ es.map leafCount, 1 ≤ n := by
    intro n hn
    rcases List.mem_map.mp hn with ⟨e, _, rfl⟩
    exact one_le_leafCount e
  have h2 := List.length_le_sum_of_one_le _ h1
  simpa using h2

/-- Example entity for C3: one `prop1` child holding one `prop2` child. -/
def exC3Entity : FlatEntity :=
  .mk (some ['E']) (some ['m']) none
    [ .mk (some ['P']) (some ['p']) none
        [ .mk (some ['Q']) (some ['q']) none [] ] ]

/-- The single record the flattener emits for `exC3Entity`. -/
def exC3Record : RecordT :=
  [("source_file", some ['f']), ("entity_type", some ['E']),
   ("entity_mentionText", some ['m']), ("prop1_type", some ['P']),
   ("prop1_mentionText", some ['p'])]

/-- C3 counterexample: for an entity whose `prop1` has a populated `properties`
list, the single emitted record carries no `prop2_*` column at all (the
`prop2` argument of `create_record` is ignored) and no id/confidence columns
for any level — refuting that every record carries id, type, confidence and
mentionText for each of the three tree levels, with `prop2` fields populated
from the `prop2` node. -/
theorem C3_counterexample_no_prop2_or_id_columns :
    convert_gcs_entities ['f'] [exC3Entity] = [exC3Record] ∧
    "prop2_mentionText" ∉ recKeys exC3Record ∧
    "prop2_type" ∉ recKeys exC3Record ∧
    "entity_id" ∉ recKeys exC3Record ∧
    "entity_confidence" ∉ recKeys exC3Record := by
  refine ⟨by decide, by decide, by decide, by decide, by decide⟩

/-- C3 (amended): every record emitted by the flattener has exactly the five
columns `source_file`, `entity_type`, `entity_mentionText`, `prop1_type`,
`prop1_mentionText` (a uniform column set), and a record for an entity
without properties carries the explicit `None` marker in both `prop1`
columns; no id, confidence or `prop2` columns exist. -/
theorem C3_uniform_record_columns (hint : List Char) (es : List FlatEntity) (r : RecordT)
    (hr : r ∈ convert_gcs_entities hint es) :
    recKeys r = ["source_file", "entity_type", "entity_mentionText",
                 "prop1_type", "prop1_mentionText"] ∧
    (∀ e : FlatEntity,
        recLookup (create_record e none none) "prop1_type" = some none ∧
        recLookup (create_record e none none) "prop1_mentionText" = some none) := by
  constructor
  · rcases mem_convert_gcs_entities hr with ⟨e, p1, p2, rfl⟩
    exact recKeys_create_record _ _ _
  · intro e
    exact ⟨rfl, rfl⟩

/-- C3 witness: the amended statement applied to the concrete emitted record. -/
theorem C3_witness :
    recKeys exC3Record = ["source_file", "entity_type", "entity_mentionText",
                 "prop1_type", "prop1_mentionText"] ∧
    (∀ e : FlatEntity,
        recLookup (create_record e none none) "prop1_type" = some none ∧
        recLookup (create_record e none none) "prop1_mentionText" = some none) :=
  C3_uniform_record_columns ['f'] [exC3Entity] exC3Record (by decide)

/-- Example entity for C5: two `prop1` children, the first with three `prop2`
children, the second childless. -/
def exC5Entity : FlatEntity :=
  .mk (some ['E']) none none
    [ .mk (some ['P']) none none
        [ .mk (some ['a']) none none [],
          .mk (some ['b']) none none [],
          .mk (some ['c']) none none [] ],
      .mk (some ['Q']) none none [] ]

/-- C5: the flattener emits exactly one record per deepest-populated leaf
(`leafCount`), hence at least one record per top-level entity and exactly one
for a childless entity; the 2-prop1/3-prop2 example yields 4 records. -/
theorem C5_flattening_cardinality :
    (∀ (hint : List Char) (es : List FlatEntity),
        (convert_gcs_entities hint es).length = (es.map leafCount).sum ∧
        es.length ≤ (convert_gcs_entities hint es).length) ∧
    (convert_gcs_entities ['f'] [exC5Entity]).length = 4 ∧
    (∀ (hint : List Char) (e : FlatEntity),
        e.properties = [] → (convert_gcs_entities hint [e]).length = 1) := by
  refine ⟨fun hint es => ⟨length_convert_gcs_entities hint es,
      length_le_convert_gcs_entities hint es⟩, by decide, ?_⟩
  intro hint e he
  rw [length_convert_gcs_entities]
  simp [leafCount, he]

/-- C5 witness: the childless-entity clause evaluated at a concrete input. -/
theorem C5_witness :
    (convert_gcs_entities ['g'] [FlatEntity.mk (some ['E']) none none []]).length = 1 :=
  C5_flattening_cardinality.2.2 ['g'] (FlatEntity.mk (some ['E']) none none []) rfl

/-- C1: the claim fails — `reconstruct_mention_text` does not skip a segment
whose `startIndex` does not parse as an integer: the parse happens inside the
`sorted(...)` key, outside the try/except, so `int("x")` raises `ValueError`
out of the function instead of returning the contribution of the remaining
valid segments (the function's own docstring and the `except ValueError:
continue` comment say invalid segments are skipped).  Evaluated at the
specification's own example over the 5-character text. -/
theorem C1_reconstruct_raises_on_nonint_start :
    reconstruct_mention_text (.str "ABCDE")
      (.arr [ .obj [("startIndex", .num 0), ("endIndex", .num 3)],
              .obj [("startIndex", .str "x"), ("endIndex", .num 5)],
              .obj [("startIndex", .num 10), ("endIndex", .num 100)] ])
      = .error .valueError := by decide

/-- C2 counterexample: two valid segments sharing `startIndex` 0 but with end
indices 1 and 2 over the text "AB".  The two orderings of the same segment
set give different outputs ("AAB" versus "ABA"), because the sort is stable
and ties keep their input order — refuting permutation invariance "even when
two segments share the same startIndex but differ in endIndex". -/
theorem C2_counterexample_tied_starts :
    reconstruct_mention_text (.str "AB")
        (.arr [ .obj [("startIndex", .str "0"), ("endIndex", .str "1")],
                .obj [("startIndex", .str "0"), ("endIndex", .str "2")] ]) ≠
      reconstruct_mention_text (.str "AB")
        (.arr [ .obj [("startIndex", .str "0"), ("endIndex", .str "2")],
                .obj [("startIndex", .str "0"), ("endIndex", .str "1")] ]) := by decide

/-!
Supporting lemmas about the reconstructor.
-/

/-- When the sort key succeeds it returns the parsed start. -/
theorem sortStartKey_eq_refStart {s : JVal} (h : startOk s = true) :
    sortStartKey s = .ok (refStart s) := by
  cases hk : sortStartKey s with
  | ok k => simp [refStart, hk]
  | error e => simp [startOk, hk] at h

/-- When every start key parses, the decorate phase succeeds and pairs every
segment with its parsed start. -/
theorem keyedSegments_eq_map {segs : List JVal} (h : ∀ s ∈ segs, startOk s = true) :
    keyedSegments segs = .ok (segs.map (fun s => (refStart s, s))) := by
  induction segs with
  | nil => rfl
  | cons s rest ih =>
    have hs := sortStartKey_eq_refStart (h s (by simp))
    have hr := ih (fun x hx => h x (List.mem_cons_of_mem s hx))
    rw [keyedSegments] at hr ⊢
    rw [List.mapM_cons, hs, hr]
    rfl

/-- The error class of the end-index parse does not depend on the start. -/
theorem segEndKey_error_indep {k : Int} {s : JVal} {e : PyErr}
    (h : segEndKey k s = .error e) : segEndKey 0 s = .error e := by
  cases s with
  | obj kvs =>
    rw [segEndKey] at h ⊢
    cases hj : jGet kvs "endIndex" with
    | none =>
      rw [hj] at h
      exact Except.noConfusion h
    | some v =>
      rw [hj] at h
      exact h
  | str a => exact h
  | num a => exact h
  | bool a => exact h
  | null => exact h
  | arr a => exact h

/-- The fold body of `reference_reconstruct`, named for the lemmas. -/
def refStep (t : List Char) (acc : List Char) (ks : Int × JVal) : List Char :=
  match refEnd ks.1 ks.2 with
  | some e =>
    if (0 : Int) ≤ ks.1 ∧ ks.1 ≤ e ∧ e ≤ Int.ofNat t.length then
      acc ++ ((t.drop ks.1.toNat).take (e - ks.1).toNat)
    else acc
  | none => acc

/-- `reference_reconstruct` in terms of `refStep`. -/
theorem reference_reconstruct_eq_fold (t : List Char) (segs : List JVal) :
    reference_reconstruct t segs =
      pyStrip ((List.insertionSort segLe (segs.map (fun s => (refStart s, s)))).foldl
        (refStep t) []) := rfl

/-- On a string document and a segment whose end parse cannot raise a
`TypeError`, a loop iteration of the code agrees with the reference step. -/
theorem reconstruct_step_eq_refStep {t : String} {acc : List Char} {ks : Int × JVal}
    (h : endOk ks.2 = true) :
    reconstruct_step (.str t) acc ks = .ok (refStep t.data acc ks) := by
  rw [reconstruct_step, refStep, refEnd]
  cases he : segEndKey ks.1 ks.2 with
  | error e =>
    cases e with
    | valueError => rfl
    | typeError => simp [endOk, segEndKey_error_indep he] at h
    | attributeError => simp [endOk, segEndKey_error_indep he] at h
  | ok e =>
    show (if ks.1 < 0 then Except.ok acc
          else if e < ks.1 then Except.ok acc
          else match pyLen (JVal.str t) with
            | .error err => Except.error err
            | .ok n =>
              if e ≤ n then Except.ok (acc ++ ((t.data.drop ks.1.toNat).take (e - ks.1).toNat))
              else Except.ok acc) =
        Except.ok (if (0 : Int) ≤ ks.1 ∧ ks.1 ≤ e ∧ e ≤ Int.ofNat t.data.length then
            acc ++ ((t.data.drop ks.1.toNat).take (e - ks.1).toNat)
          else acc)
    rw [pyLen]
    by_cases h1 : ks.1 < 0
    · rw [if_pos h1, if_neg (by omega)]
    · rw [if_neg h1]
      by_cases h2 : e < ks.1
      · rw [if_pos h2, if_neg (by omega)]
      · rw [if_neg h2]
        show (if e ≤ Int.ofNat t.data.length then
                Except.ok (acc ++ ((t.data.drop ks.1.toNat).take (e - ks.1).toNat))
              else Except.ok acc) =
          Except.ok (if (0 : Int) ≤ ks.1 ∧ ks.1 ≤ e ∧ e ≤ Int.ofNat t.data.length then
              acc ++ ((t.data.drop ks.1.toNat).take (e - ks.1).toNat)
            else acc)
        by_cases h3 : e ≤ Int.ofNat t.data.length
        · rw [if_pos h3, if_pos (by omega)]
        · rw [if_neg h3, if_neg (by omega)]

/-- The loop over the sorted segments agrees with the reference fold. -/
theorem foldlM_eq_ref_fold {t : String} :
    ∀ (l : List (Int × JVal)) (acc : List Char), (∀ ks ∈ l, endOk ks.2 = true) →
      l.foldlM (reconstruct_step (.str t)) acc = .ok (l.foldl (refStep t.data) acc) := by
  intro l
  induction l with
  | nil => intro acc _; rfl
  | cons ks rest ih =>
    intro acc h
    rw [List.foldlM_cons, reconstruct_step_eq_refStep (h ks (by simp)), List.foldl_cons]
    exact ih _ (fun x hx => h x (List.mem_cons_of_mem ks hx))

/-- On well-formed segments the code equals the reference reconstruction. -/
theorem reconstruct_eq_reference {t : String} {segs : List JVal}
    (h : ∀ s ∈ segs, segWellFormed s = true) :
    reconstruct_mention_text (.str t) (.arr segs) = .ok (reference_reconstruct t.data segs) := by
  have hstart : ∀ s ∈ segs, startOk s = true := by
    intro s hs
    have := h s hs
    rw [segWellFormed, Bool.and_eq_true] at this
    exact this.1
  have hmem : ∀ ks ∈ List.insertionSort segLe (segs.map (fun s => (refStart s, s))),
      endOk ks.2 = true := by
    intro ks hks
    have h1 : ks ∈ segs.map (fun s => (refStart s, s)) :=
      (List.perm_insertionSort segLe _).subset hks
    rcases List.mem_map.mp h1 with ⟨s, hs, rfl⟩
    have := h s hs
    rw [segWellFormed, Bool.and_eq_true] at this
    exact this.2
  have hfold := foldlM_eq_ref_fold (t := t)
    (List.insertionSort segLe (segs.map (fun s => (refStart s, s)))) [] hmem
  rw [reconstruct_mention_text, keyedSegments_eq_map hstart, reference_reconstruct_eq_fold]
  simp only [hfold]

/-- The strict version of the sort order, antisymmetric by vacuity. -/
abbrev segLt (a b : Int × JVal) : Prop := a.1 < b.1

instance : IsAntisymm (Int × JVal) segLt :=
  ⟨fun _ _ h1 h2 => absurd h2 (not_lt.mpr (le_of_lt h1))⟩

/-- Two permuted keyed lists with pairwise distinct keys have the same stable
sort: a sorted list with strictly increasing keys is unique up to permutation. -/
theorem insertionSort_eq_of_perm {k1 k2 : List (Int × JVal)}
    (hperm : k1.Perm k2)
    (hnd : k1.Pairwise (fun a b => a.1 ≠ b.1)) :
    List.insertionSort segLe k1 = List.insertionSort segLe k2 := by
  have hs1 : (List.insertionSort segLe k1).Sorted segLe := List.sorted_insertionSort segLe k1
  have hs2 : (List.insertionSort segLe k2).Sorted segLe := List.sorted_insertionSort segLe k2
  have hsymm : ∀ {x y : Int × JVal}, x.1 ≠ y.1 → y.1 ≠ x.1 := fun h => Ne.symm h
  have hnd1 : (List.insertionSort segLe k1).Pairwise (fun a b => a.1 ≠ b.1) :=
    ((List.perm_insertionSort segLe k1).pairwise_iff hsymm).mpr hnd
  have hnd2 : (List.insertionSort segLe k2).Pairwise (fun a b => a.1 ≠ b.1) :=
    ((List.perm_insertionSort segLe k2).pairwise_iff hsymm).mpr
      ((hperm.pairwise_iff hsymm).mp hnd)
  have hp : (List.insertionSort segLe k1).Perm (List.insertionSort segLe k2) :=
    ((List.perm_insertionSort segLe k1).trans hperm).trans
      (List.perm_insertionSort segLe k2).symm
  have hst1 : (List.insertionSort segLe k1).Sorted segLt :=
    hs1.imp₂ (fun _ _ hle hne => lt_of_le_of_ne hle hne) hnd1
  have hst2 : (List.insertionSort segLe k2).Sorted segLt :=
    hs2.imp₂ (fun _ _ hle hne => lt_of_le_of_ne hle hne) hnd2
  exact List.eq_of_perm_of_sorted hp hst1 hst2

/-- Reconstruction is invariant under permutation of the segment list when the
parsed start indices are pairwise distinct. -/
theorem reconstruct_perm_invariant {dt : JVal} {l1 l2 : List JVal}
    (hperm : l1.Perm l2)
    (hstart : ∀ s ∈ l1, startOk s = true)
    (hnodup : l1.Pairwise (fun a b => refStart a ≠ refStart b)) :
    reconstruct_mention_text dt (.arr l1) = reconstruct_mention_text dt (.arr l2) := by
  have hstart2 : ∀ s ∈ l2, startOk s = true := fun s hs => hstart s (hperm.mem_iff.mpr hs)
  have hpk : (l1.map (fun s => (refStart s, s))).Perm (l2.map (fun s => (refStart s, s))) :=
    hperm.map _
  have hnd : (l1.map (fun s => (refStart s, s))).Pairwise (fun a b => a.1 ≠ b.1) :=
    List.pairwise_map.mpr hnodup
  have hsort := insertionSort_eq_of_perm hpk hnd
  rw [reconstruct_mention_text, reconstruct_mention_text,
      keyedSegments_eq_map hstart, keyedSegments_eq_map hstart2]
  simp only [hsort]

/-- C2 (amended): the Text Reconstructor is invariant under any permutation of
the segment list provided the parsed start indices are pairwise distinct;
with equal start indices the stable sort keeps input order, so permutations
that reorder tied segments can change the output (see the counterexample). -/
theorem C2_perm_invariant_distinct_starts (dt : JVal) (l1 l2 : List JVal)
    (hperm : l1.Perm l2)
    (hstart : ∀ s ∈ l1, startOk s = true)
    (hnodup : l1.Pairwise (fun a b => refStart a ≠ refStart b)) :
    reconstruct_mention_text dt (.arr l1) = reconstruct_mention_text dt (.arr l2) :=
  reconstruct_perm_invariant hperm hstart hnodup

/-- C2 witness: the amended statement at a concrete two-segment permutation. -/
theorem C2_witness :
    reconstruct_mention_text (.str "ABCDEFGH")
        (.arr [JVal.obj [("startIndex", .str "5"), ("endIndex", .str "8")],
               JVal.obj [("startIndex", .str "0"), ("endIndex", .str "2")]]) =
      reconstruct_mention_text (.str "ABCDEFGH")
        (.arr [JVal.obj [("startIndex", .str "0"), ("endIndex", .str "2")],
               JVal.obj [("startIndex", .str "5"), ("endIndex", .str "8")]]) :=
  C2_perm_invariant_distinct_starts (.str "ABCDEFGH") _ _
    (List.Perm.swap _ _ _) (by decide) (by decide)

/-- C4 counterexample: on a segment list containing a segment whose
`startIndex` is the non-integer string "x", the code raises `ValueError` from
the sort key while the reference definition skips the segment and returns the
empty string — so the Text Reconstructor does not equal the reference
definition on every document text and segment list. -/
theorem C4_counterexample_nonint_start :
    reconstruct_mention_text (.str "ABCDE") (.arr [JVal.obj [("startIndex", .str "x")]]) ≠
      .ok (reference_reconstruct "ABCDE".data [JVal.obj [("startIndex", .str "x")]]) := by
  decide

/-- C4 (amended): for every document text and every list of well-formed
segments — dicts whose `startIndex` parses as an integer and whose
`endIndex`, when present, is a value `int()` accepts — the Text Reconstructor
equals the reference definition (sort ascending by parsed `startIndex`,
concatenate the in-bounds slices in sorted order, skip the rest, trim);
a segment with an unparsable `startIndex` instead makes the code raise. -/
theorem C4_code_matches_reference_on_wellformed (t : String) (segs : List JVal)
    (h : ∀ s ∈ segs, segWellFormed s = true) :
    reconstruct_mention_text (.str t) (.arr segs) = .ok (reference_reconstruct t.data segs) :=
  reconstruct_eq_reference h

/-- C4 witness: the amended statement at the specification's multi-span
out-of-order example, whose reference value is "ABFGH". -/
theorem C4_witness :
    reconstruct_mention_text (.str "ABCDEFGH")
        (.arr [JVal.obj [("startIndex", .str "5"), ("endIndex", .str "8")],
               JVal.obj [("startIndex", .str "0"), ("endIndex", .str "2")]]) =
      .ok (reference_reconstruct "ABCDEFGH".data
        [JVal.obj [("startIndex", .str "5"), ("endIndex", .str "8")],
         JVal.obj [("startIndex", .str "0"), ("endIndex", .str "2")]]) ∧
    reference_reconstruct "ABCDEFGH".data
        [JVal.obj [("startIndex", .str "5"), ("endIndex", .str "8")],
         JVal.obj [("startIndex", .str "0"), ("endIndex", .str "2")]] = "ABFGH".data :=
  ⟨C4_code_matches_reference_on_wellformed "ABCDEFGH" _ (by decide), by decide⟩

/-!
Supporting lemmas about the pruner.
-/

/-- Unpacking `noBannedObj` over the entries. -/
theorem noBannedObj_all {fields : List String} : ∀ {kvs : List (String × JVal)},
    noBannedObj fields kvs = true →
      ∀ kv ∈ kvs, (!(List.contains fields kv.1)) = true ∧ noBannedKeys fields kv.2 = true := by
  intro kvs
  induction kvs with
  | nil => intro _ kv hkv; exact absurd hkv (List.not_mem_nil kv)
  | cons kv0 rest ih =>
    intro h kv hkv
    rcases kv0 with ⟨k, v⟩
    rw [noBannedObj, Bool.and_eq_true, Bool.and_eq_true] at h
    rcases List.mem_cons.mp hkv with h1 | h1
    · subst h1
      exact ⟨h.1.1, h.1.2⟩
    · exact ih h.2 kv h1

/-- After pruning, no key of `fields` occurs in any dict of the tree. -/
theorem noBanned_remove (fields : List String) (data : JVal) :
    noBannedKeys fields (remove_fields_recursive fields data) = true := by
  refine remove_fields_recursive.induct fields
    (fun v => noBannedKeys fields (remove_fields_recursive fields v) = true)
    (fun l => noBannedArr fields (removeRecurseArr fields l) = true)
    (fun kvs => (∀ kv ∈ kvs, (!(List.contains fields kv.1)) = true) →
        noBannedObj fields (removeRecurseObj fields kvs) = true)
    ?_ ?_ ?_ ?_ ?_ ?_ ?_ data
  · intro kvs ih
    simp only [remove_fields_recursive, noBannedKeys]
    exact ih (fun kv hkv => (List.mem_filter.mp hkv).2)
  · intro items ih
    simp only [remove_fields_recursive, noBannedKeys]
    exact ih
  · intro v h1 h2
    cases v with
    | obj kvs => exact absurd rfl (h1 kvs)
    | arr items => exact absurd rfl (h2 items)
    | str s => simp [remove_fields_recursive, noBannedKeys]
    | num n => simp [remove_fields_recursive, noBannedKeys]
    | bool b => simp [remove_fields_recursive, noBannedKeys]
    | null => simp [remove_fields_recursive, noBannedKeys]
  · simp [removeRecurseArr, noBannedArr]
  · intro v rest ih1 ih2
    simp only [removeRecurseArr, noBannedArr, Bool.and_eq_true]
    exact ⟨ih1, ih2⟩
  · intro _
    simp [removeRecurseObj, noBannedObj]
  · intro k v rest ih1 ih2 h
    simp only [removeRecurseObj, noBannedObj, Bool.and_eq_true]
    refine ⟨⟨h (k, v) (by simp), ih1⟩, ih2 (fun kv hkv => h kv (List.mem_cons_of_mem _ hkv))⟩

/-- Pruning fixes trees that already carry no banned key ("leaves all other
keys and sequence elements untouched"). -/
theorem remove_of_noBanned (fields : List String) (data : JVal) :
    noBannedKeys fields data = true → remove_fields_recursive fields data = data := by
  refine remove_fields_recursive.induct fields
    (fun v => noBannedKeys fields v = true → remove_fields_recursive fields v = v)
    (fun l => noBannedArr fields l = true → removeRecurseArr fields l = l)
    (fun kvs => noBannedObj fields kvs = true → removeRecurseObj fields kvs = kvs)
    ?_ ?_ ?_ ?_ ?_ ?_ ?_ data
  · intro kvs ih h
    rw [noBannedKeys] at h
    have hfil : kvs.filter (fun kv => !(List.contains fields kv.1)) = kvs :=
      List.filter_eq_self.mpr (fun kv hkv => (noBannedObj_all h kv hkv).1)
    rw [hfil] at ih
    simp only [remove_fields_recursive, hfil]
    rw [ih h]
  · intro items ih h
    rw [noBannedKeys] at h
    simp only [remove_fields_recursive]
    rw [ih h]
  · intro v h1 h2 _
    cases v with
    | obj kvs => exact absurd rfl (h1 kvs)
    | arr items => exact absurd rfl (h2 items)
    | str s => simp [remove_fields_recursive]
    | num n => simp [remove_fields_recursive]
    | bool b => simp [remove_fields_recursive]
    | null => simp [remove_fields_recursive]
  · intro _
    simp [removeRecurseArr]
  · intro v rest ih1 ih2 h
    rw [noBannedArr, Bool.and_eq_true] at h
    simp only [removeRecurseArr]
    rw [ih1 h.1, ih2 h.2]
  · intro _
    simp [removeRecurseObj]
  · intro k v rest ih1 ih2 h
    rw [noBannedObj, Bool.and_eq_true, Bool.and_eq_true] at h
    simp only [removeRecurseObj]
    rw [ih1 h.1.2, ih2 h.2]

/-- The keys of a dict, in order (empty for non-dicts). -/
def objKeys : JVal → List String
  | .obj kvs => kvs.map Prod.fst
  | _ => []

/-- The recursion phase of pruning does not touch keys. -/
theorem removeRecurseObj_keys (fields : List String) : ∀ kvs : List (String × JVal),
    (removeRecurseObj fields kvs).map Prod.fst = kvs.map Prod.fst := by
  intro kvs
  induction kvs with
  | nil => simp [removeRecurseObj]
  | cons kv rest ih =>
    rcases kv with ⟨k, v⟩
    simp only [removeRecurseObj, List.map_cons]
    rw [ih]

/-- Pruning does not drop or reorder sequence elements. -/
theorem removeRecurseArr_length (fields : List String) : ∀ items : List JVal,
    (removeRecurseArr fields items).length = items.length := by
  intro items
  induction items with
  | nil => simp [removeRecurseArr]
  | cons v rest ih =>
    simp only [removeRecurseArr, List.length_cons]
    rw [ih]

/-- On a dict node, pruning keeps exactly the keys outside `fields`, in order. -/
theorem objKeys_remove (fields : List String) (kvs : List (String × JVal)) :
    objKeys (remove_fields_recursive fields (.obj kvs)) =
      (kvs.map Prod.fst).filter (fun k => !(List.contains fields k)) := by
  simp only [remove_fields_recursive, objKeys]
  rw [removeRecurseObj_keys]
  induction kvs with
  | nil => rfl
  | cons kv rest ih =>
    rcases kv with ⟨k, v⟩
    rw [List.filter_cons, List.map_cons, List.filter_cons]
    split
    · rw [List.map_cons, ih]
    · exact ih

/-- A tree clean for a key set is clean for any subset of it. -/
theorem noBanned_mono {sub fields : List String} (hsub : ∀ k ∈ sub, k ∈ fields) (v : JVal) :
    noBannedKeys fields v = true → noBannedKeys sub v = true := by
  refine noBannedKeys.induct fields
    (fun v => noBannedKeys fields v = true → noBannedKeys sub v = true)
    (fun l => noBannedArr fields l = true → noBannedArr sub l = true)
    (fun kvs => noBannedObj fields kvs = true → noBannedObj sub kvs = true)
    ?_ ?_ ?_ ?_ ?_ ?_ ?_ v
  · intro kvs ih h
    rw [noBannedKeys] at h ⊢
    exact ih h
  · intro items ih h
    rw [noBannedKeys] at h ⊢
    exact ih h
  · intro v h1 h2 _
    cases v with
    | obj kvs => exact absurd rfl (h1 kvs)
    | arr items => exact absurd rfl (h2 items)
    | str s => simp [noBannedKeys]
    | num n => simp [noBannedKeys]
    | bool b => simp [noBannedKeys]
    | null => simp [noBannedKeys]
  · intro _
    simp [noBannedArr]
  · intro v rest ih1 ih2 h
    rw [noBannedArr, Bool.and_eq_true] at h
    rw [noBannedArr, Bool.and_eq_true]
    exact ⟨ih1 h.1, ih2 h.2⟩
  · intro _
    simp [noBannedObj]
  · intro k v rest ih1 ih2 h
    rw [noBannedObj, Bool.and_eq_true, Bool.and_eq_true] at h
    rw [noBannedObj, Bool.and_eq_true, Bool.and_eq_true]
    refine ⟨⟨?_, ih1 h.1.2⟩, ih2 h.2⟩
    have hk : k ∉ fields := by
      have h1 := h.1.1
      rw [Bool.not_eq_true'] at h1
      simpa using h1
    rw [Bool.not_eq_true']
    simpa using fun hmem => hk (hsub k hmem)

/-- C7: the Field Pruner removes every key of the field set from every dict at
every depth — no dict of the result contains a banned key — while a tree
containing no banned key is left untouched; on a dict node exactly the
non-banned keys survive in order, and list elements are never dropped. -/
theorem C7_prune_removes_all_listed_fields (data : JVal) (fields : List String) :
    noBannedKeys fields (remove_fields_recursive fields data) = true ∧
    (noBannedKeys fields data = true → remove_fields_recursive fields data = data) ∧
    (∀ kvs : List (String × JVal),
        objKeys (remove_fields_recursive fields (.obj kvs)) =
          (kvs.map Prod.fst).filter (fun k => !(List.contains fields k))) ∧
    (∀ items : List JVal,
        remove_fields_recursive fields (.arr items) = .arr (removeRecurseArr fields items) ∧
        (removeRecurseArr fields items).length = items.length) := by
  refine ⟨noBanned_remove fields data, remove_of_noBanned fields data,
    fun kvs => objKeys_remove fields kvs, fun items => ⟨?_, removeRecurseArr_length fields items⟩⟩
  simp only [remove_fields_recursive]

/-- C7 witness: a clean dict is a fixed point of pruning. -/
theorem C7_witness :
    remove_fields_recursive ["layout"] (.obj [("a", .num 1)]) = .obj [("a", .num 1)] :=
  (C7_prune_removes_all_listed_fields (.obj [("a", .num 1)]) ["layout"]).2.1
    (by simp [noBannedKeys, noBannedObj, noBannedArr])

/-- C9: the configured field set removes `textAnchor`, `textSegments` and
`boundingPoly` but never `mentionText`: `mentionText` is not in
`FIELDS_TO_REMOVE`, its presence in a dict node survives pruning, the three
listed fields are gone at every depth after pruning, and in the processing
pipeline the pruning runs on the output of `correct_entities_recursive`
(reconstruction before pruning). -/
theorem C9_prune_preserves_mentionText_and_order :
    ("mentionText" ∉ FIELDS_TO_REMOVE ∧ "textAnchor" ∈ FIELDS_TO_REMOVE ∧
     "textSegments" ∈ FIELDS_TO_REMOVE ∧ "boundingPoly" ∈ FIELDS_TO_REMOVE) ∧
    (∀ kvs : List (String × JVal),
       "mentionText" ∈ objKeys (remove_fields_recursive FIELDS_TO_REMOVE (.obj kvs)) ↔
        "mentionText" ∈ objKeys (.obj kvs)) ∧
    (∀ data : JVal,
       noBannedKeys ["textAnchor", "textSegments", "boundingPoly"]
         (remove_fields_recursive FIELDS_TO_REMOVE data) = true) ∧
    (∀ (kvs : List (String × JVal)) (es es2 : List JVal),
       jGet kvs "entities" = some (.arr es) →
       correct_entities_recursive ((jGet kvs "text").getD (.str "")) es = .ok es2 →
       process_docai_core (.obj kvs) =
         .ok (remove_fields_recursive FIELDS_TO_REMOVE
           (.obj (jSet kvs "entities" (.arr es2))))) := by
  refine ⟨by decide, ?_, ?_, ?_⟩
  · intro kvs
    rw [objKeys_remove]
    simp only [objKeys]
    constructor
    · intro h
      exact (List.mem_filter.mp h).1
    · intro h
      exact List.mem_filter.mpr ⟨h, by decide⟩
  · intro data
    exact noBanned_mono (by decide) _ (noBanned_remove FIELDS_TO_REMOVE data)
  · intro kvs es es2 h1 h2
    simp only [process_docai_core, h1, h2]

/-- C9 witness: the pipeline clause at a concrete document. -/
theorem C9_witness :
    process_docai_core (.obj [("text", .str "A"), ("entities", .arr [])]) =
      .ok (remove_fields_recursive FIELDS_TO_REMOVE
        (.obj (jSet [("text", .str "A"), ("entities", .arr [])] "entities" (.arr [])))) :=
  C9_prune_preserves_mentionText_and_order.2.2.2 _ [] [] rfl
    (by simp [correct_entities_recursive])

/-- C6 counterexample: a structurally degenerate document whose `entities`
list is empty is not surfaced as a fatal error anywhere: the spreadsheet
converter merely prints a warning and continues with the next blob
(`warnSkip`), and the extract-side core happily normalizes, prunes and
returns the document for upload (here the pruned document equals the input),
refuting that the core refuses to proceed on such input. -/
theorem C6_counterexample_empty_entities_not_fatal :
    handle_blob (.obj [("text", .str "T"), ("entities", .arr [])]) = .warnSkip ∧
    process_docai_core (.obj [("text", .str "T"), ("entities", .arr [])]) =
      .ok (.obj [("text", .str "T"), ("entities", .arr [])]) := by
  constructor
  · rfl
  · simp [process_docai_core, correct_entities_recursive, jGet, jSet,
      remove_fields_recursive, removeRecurseObj, removeRecurseArr, FIELDS_TO_REMOVE,
      List.filter_cons, List.find?]

/-- C6 (amended): invalid top-level input is mostly handled non-fatally.  In
the spreadsheet converter a document without (or with an empty) `entities`
list is skipped with a printed warning and processing continues; the
extract-side core processes and uploads such a document (pruned) instead of
refusing.  Only a non-dict top-level value makes the extract-side core raise
(an uncaught `AttributeError` from `doc.get`), while the converter catches
the same condition and skips the file with a printed error. -/
theorem C6_invalid_input_nonfatal :
    (∀ kvs : List (String × JVal), jGet kvs "entities" = none →
        handle_blob (.obj kvs) = .warnSkip ∧
        process_docai_core (.obj kvs) =
          .ok (remove_fields_recursive FIELDS_TO_REMOVE (.obj kvs))) ∧
    (∀ kvs : List (String × JVal), jGet kvs "entities" = some (.arr []) →
        handle_blob (.obj kvs) = .warnSkip ∧
        process_docai_core (.obj kvs) =
          .ok (remove_fields_recursive FIELDS_TO_REMOVE
            (.obj (jSet kvs "entities" (.arr []))))) ∧
    (∀ v : JVal, (∀ kvs, v ≠ .obj kvs) →
        handle_blob v = .errorSkip ∧ process_docai_core v = .error .attributeError) := by
  refine ⟨?_, ?_, ?_⟩
  · intro kvs h
    constructor
    · simp only [handle_blob, h]
      rfl
    · simp only [process_docai_core, h]
  · intro kvs h
    constructor
    · simp only [handle_blob, h]
      rfl
    · simp only [process_docai_core, h]
      simp [correct_entities_recursive]
  · intro v hv
    cases v with
    | obj kvs => exact absurd rfl (hv kvs)
    | str s => exact ⟨rfl, rfl⟩
    | num n => exact ⟨rfl, rfl⟩
    | bool b => exact ⟨rfl, rfl⟩
    | null => exact ⟨rfl, rfl⟩
    | arr items => exact ⟨rfl, rfl⟩

/-- C6 witness: the missing-entities clause at a concrete document. -/
theorem C6_witness :
    handle_blob (.obj [("x", .num 1)]) = .warnSkip ∧
    process_docai_core (.obj [("x", .num 1)]) =
      .ok (remove_fields_recursive FIELDS_TO_REMOVE (.obj [("x", .num 1)])) :=
  C6_invalid_input_nonfatal.1 [("x", .num 1)] rfl

/-!
Supporting lemmas about text cleaning.
-/

/-- The head surviving `dropWhile` fails the predicate. -/
theorem head_dropWhile_false {p : Char → Bool} {l : List Char} {c : Char}
    (h : (l.dropWhile p).head? = some c) : p c = false := by
  have h1 := List.head?_dropWhile_not p l
  rw [h] at h1
  exact h1

/-- `dropWhile` keeps the last element when its result is nonempty. -/
theorem getLast?_dropWhile_of_ne_nil {p : Char → Bool} : ∀ {l : List Char},
    l.dropWhile p ≠ [] → (l.dropWhile p).getLast? = l.getLast? := by
  intro l
  induction l with
  | nil => intro h; exact absurd rfl h
  | cons a rest ih =>
    intro h
    by_cases hpa : p a = true
    · rw [List.dropWhile_cons_of_pos hpa] at h ⊢
      rw [ih h]
      cases rest with
      | nil => exact absurd List.dropWhile_nil h
      | cons b t => rw [List.getLast?_cons_cons]
    · have hpa2 : p a = false := by simpa using hpa
      rw [List.dropWhile_cons_of_neg (by simp [hpa2])]

/-- A nonempty strip result starts with a non-whitespace character. -/
theorem pyStrip_head_not_space {cs : List Char} {c : Char}
    (h : (pyStrip cs).head? = some c) : pyIsSpace c = false := by
  rw [pyStrip, List.head?_reverse] at h
  have hne : List.dropWhile pyIsSpace ((List.dropWhile pyIsSpace cs).reverse) ≠ [] := by
    intro hnil
    rw [hnil] at h
    exact Option.noConfusion h
  rw [getLast?_dropWhile_of_ne_nil hne, List.getLast?_reverse] at h
  exact head_dropWhile_false h

/-- A nonempty strip result ends with a non-whitespace character. -/
theorem pyStrip_last_not_space {cs : List Char} {c : Char}
    (h : (pyStrip cs).getLast? = some c) : pyIsSpace c = false := by
  rw [pyStrip, List.getLast?_reverse] at h
  exact head_dropWhile_false h

/-- Newline normalization leaves no carriage return in the output. -/
theorem normNL_no_cr : ∀ l : List Char, '\r' ∉ normNL l := by
  intro l
  induction l using normNL.induct with
  | case1 => simp [normNL]
  | case2 rest ih =>
    rw [normNL.eq_2]
    intro hmem
    rcases List.mem_cons.mp hmem with h | h
    · exact absurd h (by decide)
    · exact ih h
  | case3 rest h1 ih =>
    rw [normNL.eq_3 rest h1]
    intro hmem
    rcases List.mem_cons.mp hmem with h | h
    · exact absurd h (by decide)
    · exact ih h
  | case4 c rest h1 h2 ih =>
    rw [normNL.eq_4 c rest h1 h2]
    intro hmem
    rcases List.mem_cons.mp hmem with h | h
    · exact h2 h.symm
    · exact ih h

/-- Newline normalization of a nonempty string is nonempty. -/
theorem normNL_ne_nil : ∀ {l : List Char}, l ≠ [] → normNL l ≠ [] := by
  intro l h
  cases l with
  | nil => exact absurd rfl h
  | cons c rest =>
    by_cases hc : c = '\r'
    · subst hc
      cases rest with
      | nil =>
        rw [normNL.eq_3 [] (fun r hh => List.noConfusion hh)]
        simp
      | cons c2 r2 =>
        by_cases h2 : c2 = '\n'
        · subst h2
          rw [normNL.eq_2]
          simp
        · rw [normNL.eq_3 (c2 :: r2) (fun r hh => by simp [List.cons.injEq, h2] at hh)]
          simp
    · rw [normNL.eq_4 c rest (fun r hc2 _ => hc hc2) (fun hcc => hc hcc)]
      simp

/-- Newline normalization keeps a non-whitespace head. -/
theorem normNL_head : ∀ {l : List Char} {c : Char}, l.head? = some c →
    pyIsSpace c = false → (normNL l).head? = some c := by
  intro l c h hc
  cases l with
  | nil => exact Option.noConfusion h
  | cons a rest =>
    have ha : a = c := by simpa using h
    subst ha
    have hcr : ¬(a = '\r') := by
      intro hr
      rw [hr] at hc
      simp [pyIsSpace] at hc
    rw [normNL.eq_4 a rest (fun r hc2 _ => hcr hc2) hcr]
    rfl

/-- Prepending to a nonempty list does not change its last element. -/
theorem getLast?_cons_ne_nil {a : Char} {l : List Char} (h : l ≠ []) :
    (a :: l).getLast? = l.getLast? := by
  cases l with
  | nil => exact absurd rfl h
  | cons b t => exact List.getLast?_cons_cons

/-- Newline normalization keeps a non-whitespace last character. -/
theorem normNL_getLast : ∀ (l : List Char) (c : Char), l.getLast? = some c →
    pyIsSpace c = false → (normNL l).getLast? = some c := by
  intro l
  induction l using normNL.induct with
  | case1 => intro c h _; exact Option.noConfusion h
  | case2 rest ih =>
    intro c h hc
    rw [normNL.eq_2]
    cases rest with
    | nil =>
      have : c = '\n' := by simpa using h.symm
      subst this
      simp [pyIsSpace] at hc
    | cons c2 r2 =>
      rw [List.getLast?_cons_cons, List.getLast?_cons_cons] at h
      rw [getLast?_cons_ne_nil (normNL_ne_nil (by simp))]
      exact ih c h hc
  | case3 rest h1 ih =>
    intro c h hc
    rw [normNL.eq_3 rest h1]
    cases rest with
    | nil =>
      have : c = '\r' := by simpa using h.symm
      subst this
      simp [pyIsSpace] at hc
    | cons c2 r2 =>
      rw [List.getLast?_cons_cons] at h
      rw [getLast?_cons_ne_nil (normNL_ne_nil (by simp))]
      exact ih c h hc
  | case4 a rest h1 h2 ih =>
    intro c h hc
    rw [normNL.eq_4 a rest h1 h2]
    cases rest with
    | nil =>
      have : c = a := by simpa using h.symm
      subst this
      simp [normNL]
    | cons c2 r2 =>
      rw [List.getLast?_cons_cons] at h
      rw [getLast?_cons_ne_nil (normNL_ne_nil (by simp))]
      exact ih c h hc

/-- A value that went through `clean_text` and then `normalize_newlines` is
fully cleaned: nonempty, trimmed at both ends, and free of carriage returns. -/
theorem clean_then_normalize_isClean {mt : Option (List Char)} {v : List Char}
    (h : (clean_text mt).map normalize_newlines = some v) : isCleanText v = true := by
  cases mt with
  | none => exact Option.noConfusion h
  | some w =>
    rw [clean_text] at h
    by_cases hempty : (pyStrip w).isEmpty
    · rw [if_pos hempty] at h
      exact Option.noConfusion h
    · rw [if_neg hempty] at h
      rw [Option.map_some'] at h
      have hne : pyStrip w ≠ [] := by
        intro hnil
        rw [hnil] at hempty
        exact hempty rfl
      have hv : v = normNL (pyStrip w) := by
        have h2 : normalize_newlines (pyStrip w) = v := by simpa using h
        rw [← h2, normalize_newlines, if_neg (by simpa [List.isEmpty_iff] using hne)]
      subst hv
      obtain ⟨c0, hc0⟩ : ∃ c0, (pyStrip w).head? = some c0 := by
        cases hh : (pyStrip w).head? with
        | none => exact absurd (List.head?_eq_none_iff.mp hh) hne
        | some c0 => exact ⟨c0, rfl⟩
      obtain ⟨c1, hc1⟩ : ∃ c1, (pyStrip w).getLast? = some c1 := by
        cases hh : (pyStrip w).getLast? with
        | none => exact absurd (List.getLast?_eq_none_iff.mp hh) hne
        | some c1 => exact ⟨c1, rfl⟩
      have hh0 : pyIsSpace c0 = false := pyStrip_head_not_space hc0
      have hh1 : pyIsSpace c1 = false := pyStrip_last_not_space hc1
      have hA : (normNL (pyStrip w)).head? = some c0 := normNL_head hc0 hh0
      have hB : (normNL (pyStrip w)).getLast? = some c1 := normNL_getLast _ _ hc1 hh1
      have hC : '\r' ∉ normNL (pyStrip w) := normNL_no_cr _
      have hD : normNL (pyStrip w) ≠ [] := normNL_ne_nil hne
      rw [isCleanText, hA, hB]
      simp [hh0, hh1, List.isEmpty_iff, hD, hC]

/-- The `entity_mentionText` column of a record. -/
theorem recLookup_entity_mention (e : FlatEntity) (p1 p2 : Option FlatEntity) :
    recLookup (create_record e p1 p2) "entity_mentionText" =
      some ((clean_text e.mentionText).map normalize_newlines) := rfl

/-- The `prop1_mentionText` column of a record. -/
theorem recLookup_prop1_mention (e : FlatEntity) (p1 p2 : Option FlatEntity) :
    recLookup (create_record e p1 p2) "prop1_mentionText" =
      some ((p1.bind (fun p => clean_text p.mentionText)).map normalize_newlines) := rfl

/-- The `entity_type` column of a record: only newline-normalized, not
trimmed and not nulled when blank. -/
theorem recLookup_entity_type (e : FlatEntity) (p1 p2 : Option FlatEntity) :
    recLookup (create_record e p1 p2) "entity_type" =
      some (e.type.map normalize_newlines) := rfl

/-- C8 counterexample: the `entity_type` value of an emitted record is a
string field, yet it is only newline-normalized — it keeps its surrounding
whitespace (and an empty value would stay an empty string rather than become
the None marker), refuting that every text field of an emitted record is
trimmed and empty-mapped.  The tab and trailing space survive while the
carriage return does become a newline. -/
theorem C8_counterexample_type_field_not_trimmed :
    convert_gcs_entities ['f']
        [FlatEntity.mk (some ['\t', 'A', '\r', 'B', ' ']) (some [' ', 'h', 'i', ' ']) none []] =
      [[("source_file", some ['f']), ("entity_type", some ['\t', 'A', '\n', 'B', ' ']),
        ("entity_mentionText", some ['h', 'i']), ("prop1_type", none),
        ("prop1_mentionText", none)]] ∧
    isCleanText ['\t', 'A', '\n', 'B', ' '] = false := by
  exact ⟨by decide, by decide⟩

/-- C8 (amended): in every emitted record the mentionText columns are fully
cleaned — trimmed of surrounding whitespace, mapped to the None marker when
the trimmed value is empty (so any surviving string value is nonempty), and
with every line-break variant replaced by a single newline so no carriage
return survives; the other string columns (`source_file`, the type columns)
are only newline-normalized, not trimmed. -/
theorem C8_mention_fields_cleaned (hint : List Char) (es : List FlatEntity) (r : RecordT)
    (hr : r ∈ convert_gcs_entities hint es) :
    (∀ v, recLookup r "entity_mentionText" = some (some v) → isCleanText v = true) ∧
    (∀ v, recLookup r "prop1_mentionText" = some (some v) → isCleanText v = true) ∧
    (∃ e p1 p2, r = create_record e p1 p2 ∧
        recLookup r "entity_type" = some (e.type.map normalize_newlines)) := by
  rcases mem_convert_gcs_entities hr with ⟨e, p1, p2, rfl⟩
  refine ⟨?_, ?_,
    ⟨set_source_hint hint e, p1, p2, rfl, recLookup_entity_type _ _ _⟩⟩
  · intro v hv
    rw [recLookup_entity_mention] at hv
    exact clean_then_normalize_isClean (by simpa using hv)
  · intro v hv
    rw [recLookup_prop1_mention] at hv
    have h1 : (p1.bind (fun p => clean_text p.mentionText)).map normalize_newlines = some v := by
      simpa using hv
    cases p1 with
    | none => simp at h1
    | some p => exact clean_then_normalize_isClean (by simpa using h1)

/-- C8 witness: the amended statement at a concrete emitted record. -/
theorem C8_witness :
    (∀ v, recLookup [("source_file", some ['f']), ("entity_type", some ['T']),
        ("entity_mentionText", some ['h', 'i']), ("prop1_type", none),
        ("prop1_mentionText", none)] "entity_mentionText" = some (some v) →
        isCleanText v = true) ∧
    (∀ v, recLookup [("source_file", some ['f']), ("entity_type", some ['T']),
        ("entity_mentionText", some ['h', 'i']), ("prop1_type", none),
        ("prop1_mentionText", none)] "prop1_mentionText" = some (some v) →
        isCleanText v = true) ∧
    (∃ e p1 p2, [("source_file", some ['f']), ("entity_type", some ['T']),
        ("entity_mentionText", some ['h', 'i']), ("prop1_type", none),
        ("prop1_mentionText", none)] = create_record e p1 p2 ∧
        recLookup [("source_file", some ['f']), ("entity_type", some ['T']),
          ("entity_mentionText", some ['h', 'i']), ("prop1_type", none),
          ("prop1_mentionText", none)] "entity_type" =
            some (e.type.map normalize_newlines)) :=
  C8_mention_fields_cleaned ['f']
    [FlatEntity.mk (some ['T']) (some [' ', 'h', 'i', ' ']) none []] _ (by decide)

/-- A skipped segment contributes nothing to the reference fold. -/
theorem refStep_skip {t acc : List Char} {ks : Int × JVal}
    (h : segSkipped t ks.1 ks.2 = true) : refStep t acc ks = acc := by
  rw [refStep]
  rw [segSkipped] at h
  cases he : refEnd ks.1 ks.2 with
  | none => rfl
  | some e =>
    rw [he] at h
    have h2 : (!(decide ((0 : Int) ≤ ks.1 ∧ ks.1 ≤ e ∧ e ≤ Int.ofNat t.length))) = true := h
    rw [Bool.not_eq_true'] at h2
    have hcond : ¬((0 : Int) ≤ ks.1 ∧ ks.1 ≤ e ∧ e ≤ Int.ofNat t.length) :=
      of_decide_eq_false h2
    show (if (0 : Int) ≤ ks.1 ∧ ks.1 ≤ e ∧ e ≤ Int.ofNat t.length then
            acc ++ ((t.drop ks.1.toNat).take (e - ks.1).toNat)
          else acc) = acc
    rw [if_neg hcond]

/-- A fold over only skipped segments returns its accumulator. -/
theorem foldl_refStep_all_skipped {t : List Char} :
    ∀ (l : List (Int × JVal)) (acc : List Char),
      (∀ ks ∈ l, segSkipped t ks.1 ks.2 = true) → l.foldl (refStep t) acc = acc := by
  intro l
  induction l with
  | nil => intro acc _; rfl
  | cons ks rest ih =>
    intro acc h
    rw [List.foldl_cons, refStep_skip (h ks (by simp))]
    exact ih acc (fun x hx => h x (List.mem_cons_of_mem ks hx))

/-- When every segment is skipped, the reference reconstruction is empty. -/
theorem reference_reconstruct_empty {t : List Char} {segs : List JVal}
    (h : ∀ s ∈ segs, segSkipped t (refStart s) s = true) :
    reference_reconstruct t segs = [] := by
  rw [reference_reconstruct_eq_fold]
  rw [foldl_refStep_all_skipped _ []]
  · rfl
  · intro ks hks
    have h1 : ks ∈ segs.map (fun s => (refStart s, s)) :=
      (List.perm_insertionSort segLe _).subset hks
    rcases List.mem_map.mp h1 with ⟨s, hs, rfl⟩
    exact h s hs

/-- C10 counterexample: a node whose single segment has the unparsable
`startIndex` "x" over the truthy text "A" makes `correct_entities_recursive`
raise `ValueError` (out of the sort key of the reconstructor), rather than
overwrite `mentionText` with the empty string as claimed; the
provider-supplied value is neither replaced nor the traversal completed. -/
theorem C10_counterexample_unparsable_start_raises :
    correct_entities_recursive (.str "A")
      [.obj [("mentionText", .str "orig"),
             ("textAnchor", .obj [("textSegments", .arr [.obj [("startIndex", .str "x")]])])]] =
      .error .valueError := by
  have hrec : reconstruct_mention_text (.str "A") (.arr [.obj [("startIndex", .str "x")]]) =
      .error .valueError := by decide
  have hseg : getTextSegments [("mentionText", .str "orig"),
      ("textAnchor", .obj [("textSegments", .arr [.obj [("startIndex", .str "x")]])])] =
      .ok (.arr [.obj [("startIndex", .str "x")]]) := rfl
  simp [correct_entities_recursive, hseg, hrec, pyTruthy, Except.map]

/-- C10 (amended): when a node's `textAnchor.textSegments` is a non-empty
list, the document text is a non-empty string, every segment is well formed
(its `startIndex` parses; its `endIndex`, when present, is a value `int()`
accepts) and every segment is skipped by the range check (or its `endIndex`
fails to parse), normalization unconditionally overwrites the node's
`mentionText` with the empty string, discarding any provider-supplied value;
but when a segment's `startIndex` does not parse, the whole normalization
raises `ValueError` instead (see the counterexample). -/
theorem C10_overwrite_empty_on_invalid_segments (docStr : String)
    (kvs tkvs : List (String × JVal)) (segs : List JVal)
    (h1 : jGet kvs "textAnchor" = some (.obj tkvs))
    (h2 : jGet tkvs "textSegments" = some (.arr segs))
    (h3 : segs ≠ [])
    (h4 : docStr ≠ "")
    (h5 : ∀ s ∈ segs, segWellFormed s = true)
    (h6 : ∀ s ∈ segs, segSkipped docStr.data (refStart s) s = true)
    (h7 : jGet kvs "properties" = none) :
    correct_entities_recursive (.str docStr) [.obj kvs] =
      .ok [.obj (jSet kvs "mentionText" (.str ""))] := by
  have hseg : getTextSegments kvs = .ok (.arr segs) := by
    simp only [getTextSegments, h1, h2, Option.getD_some]
  have htr1 : pyTruthy (JVal.arr segs) = true := by
    simp [pyTruthy, List.isEmpty_iff, h3]
  have htr2 : pyTruthy (JVal.str docStr) = true := by
    simp [pyTruthy, h4]
  have hrec : reconstruct_mention_text (.str docStr) (.arr segs) = .ok [] := by
    rw [reconstruct_eq_reference h5, reference_reconstruct_empty h6]
  simp only [correct_entities_recursive, hseg, htr1, htr2, hrec, Bool.and_self, if_true]
  have hmap : (Except.map (fun t => jSet kvs "mentionText" (JVal.str (String.mk t)))
      (Except.ok []) : Except PyErr (List (String × JVal))) =
        Except.ok (jSet kvs "mentionText" (JVal.str "")) := rfl
  simp only [hmap, h7]
  split
  · rfl
  all_goals simp_all

/-- C10 witness: a well-formed but out-of-range segment over the text "A"
makes normalization overwrite the provider-supplied mentionText with "". -/
theorem C10_witness :
    correct_entities_recursive (.str "A")
      [.obj [("mentionText", .str "orig"),
             ("textAnchor", .obj [("textSegments",
                .arr [.obj [("startIndex", .str "10"), ("endIndex", .str "10")]])])]] =
      .ok [.obj (jSet [("mentionText", .str "orig"),
             ("textAnchor", .obj [("textSegments",
                .arr [.obj [("startIndex", .str "10"), ("endIndex", .str "10")]])])]
          "mentionText" (.str ""))] :=
  C10_overwrite_empty_on_invalid_segments "A" _ _ _ rfl rfl (by simp) (by decide)
    (by decide) (by decide) rfl
